import Mathlib

/-!
Shallow embedding of the osm-parse program (src/main.rs).

Element names are byte lists (`List Nat`, each entry one byte), file paths
are character lists wrapped in `Option` (`none` models a path whose name is
not valid UTF-8, as `OsStr::to_str` returning `None`), and the two external
collaborators — the streaming XML reader (quick_xml) and the bzip2
decompressor — are modelled as explicit function parameters: the reader as a
function from input bytes to the list of event results it would yield, the
decompressor as a function on byte lists.
-/

namespace OsmParse

/-- The three recognized OSM element kinds (enum OsmTag in the source). -/
inductive OsmTag
  | Node
  | Way
  | Relation
deriving DecidableEq

/-- Per-kind counters (struct TagInfo: starts and ends, u64, Default = 0/0). -/
structure TagInfo where
  starts : Nat
  ends : Nat
deriving DecidableEq

/-- The two supported container formats (enum FileFormats). -/
inductive FileFormats
  | XML
  | BZIP2
deriving DecidableEq

/-- The quick_xml events the main loop distinguishes: Start, End, Empty and
Eof; every other variant falls into the wildcard arm, modelled by `Other`.
Events carry the local element name as bytes, as produced by
`bytes.name().local_name()`. -/
inductive Event
  | Start (name : List Nat)
  | End (name : List Nat)
  | Empty (name : List Nat)
  | Eof
  | Other
deriving DecidableEq

/-- Byte-level `u8::to_ascii_lowercase`: adds 0x20 on ASCII uppercase. -/
def toAsciiLowercase (b : Nat) : Nat :=
  if 0x41 ≤ b ∧ b ≤ 0x5A then b + 0x20 else b

/-- Slice-level `eq_ignore_ascii_case`: equal lengths and pointwise equal
after ASCII lowercasing. -/
def eqIgnoreAsciiCase : List Nat → List Nat → Bool
  | [], [] => true
  | a :: ta, b :: tb => (toAsciiLowercase a == toAsciiLowercase b) && eqIgnoreAsciiCase ta tb
  | _, _ => false

/-- The bytes of the literal b"node". -/
def nodeBytes : List Nat := [0x6E, 0x6F, 0x64, 0x65]

/-- The bytes of the literal b"way". -/
def wayBytes : List Nat := [0x77, 0x61, 0x79]

/-- The bytes of the literal b"relation". -/
def relationBytes : List Nat := [0x72, 0x65, 0x6C, 0x61, 0x74, 0x69, 0x6F, 0x6E]

/-- `impl TryFrom<&[u8]> for OsmTag`: case-insensitive ASCII comparison
against node, way, relation in that order; no match yields `Err(false)`. -/
def OsmTag.tryFrom (value : List Nat) : Except Bool OsmTag :=
  if eqIgnoreAsciiCase value nodeBytes then .ok .Node
  else if eqIgnoreAsciiCase value wayBytes then .ok .Way
  else if eqIgnoreAsciiCase value relationBytes then .ok .Relation
  else .error false

/-- `impl TryFrom<&OsStr> for FileFormats`: a UTF-8 decodable name ending in
"osm.bz2" is BZIP2, else one ending in "osm" is XML; everything else,
including a non-UTF-8 name, is `Err(false)`. Suffix comparison on the
character list models `str::ends_with` (the patterns are pure ASCII, so byte
suffixes and character suffixes agree on valid UTF-8). -/
def FileFormats.tryFrom : Option (List Char) → Except Bool FileFormats
  | some s =>
    if List.isSuffixOf ("osm.bz2".toList) s then .ok .BZIP2
    else if List.isSuffixOf ("osm".toList) s then .ok .XML
    else .error false
  | none => .error false

/-- The Unicode replacement character U+FFFD. -/
def replacementChar : Char := Char.ofNat 0xFFFD

/-- A UTF-8 continuation byte: 0x80 to 0xBF. -/
def isCont (b : Nat) : Bool := decide (0x80 ≤ b ∧ b ≤ 0xBF)

/-- Admissible second byte of a multi-byte UTF-8 sequence headed by b1
(the narrowed ranges rule out overlong forms, surrogates and values above
U+10FFFF, as in core::str validation). -/
def validSecond (b1 b2 : Nat) : Bool :=
  if b1 = 0xE0 then decide (0xA0 ≤ b2 ∧ b2 ≤ 0xBF)
  else if b1 = 0xED then decide (0x80 ≤ b2 ∧ b2 ≤ 0x9F)
  else if b1 = 0xF0 then decide (0x90 ≤ b2 ∧ b2 ≤ 0xBF)
  else if b1 = 0xF4 then decide (0x80 ≤ b2 ∧ b2 ≤ 0x8F)
  else isCont b2

/-- `String::from_utf8_lossy`: decodes valid UTF-8 sequences and substitutes
one U+FFFD per maximal invalid subpart (invalid leading byte: skip one byte;
valid lead with a bad continuation: skip the bytes read so far; truncated
sequence at end of input: one replacement for the tail). -/
def lossyDecode : List Nat → List Char
  | [] => []
  | b1 :: rest =>
    if b1 ≤ 0x7F then Char.ofNat b1 :: lossyDecode rest
    else if 0xC2 ≤ b1 ∧ b1 ≤ 0xDF then
      match rest with
      | [] => [replacementChar]
      | b2 :: rest2 =>
        if isCont b2 then
          Char.ofNat ((b1 % 0x20) * 0x40 + b2 % 0x40) :: lossyDecode rest2
        else replacementChar :: lossyDecode (b2 :: rest2)
    else if 0xE0 ≤ b1 ∧ b1 ≤ 0xEF then
      match rest with
      | [] => [replacementChar]
      | b2 :: rest2 =>
        if validSecond b1 b2 then
          match rest2 with
          | [] => [replacementChar]
          | b3 :: rest3 =>
            if isCont b3 then
              Char.ofNat ((b1 % 0x10) * 0x1000 + (b2 % 0x40) * 0x40 + b3 % 0x40) ::
                lossyDecode rest3
            else replacementChar :: lossyDecode (b3 :: rest3)
        else replacementChar :: lossyDecode (b2 :: rest2)
    else if 0xF0 ≤ b1 ∧ b1 ≤ 0xF4 then
      match rest with
      | [] => [replacementChar]
      | b2 :: rest2 =>
        if validSecond b1 b2 then
          match rest2 with
          | [] => [replacementChar]
          | b3 :: rest3 =>
            if isCont b3 then
              match rest3 with
              | [] => [replacementChar]
              | b4 :: rest4 =>
                if isCont b4 then
                  Char.ofNat ((b1 % 0x8) * 0x40000 + (b2 % 0x40) * 0x1000 +
                    (b3 % 0x40) * 0x40 + b4 % 0x40) :: lossyDecode rest4
                else replacementChar :: lossyDecode (b4 :: rest4)
            else replacementChar :: lossyDecode (b3 :: rest3)
        else replacementChar :: lossyDecode (b2 :: rest2)
    else replacementChar :: lossyDecode rest

/-- UTF-8 validity of a byte list: the byte list is a concatenation of
well-formed UTF-8 sequences (the condition under which from_utf8 succeeds
and lossy decoding substitutes nothing). -/
inductive Utf8Valid : List Nat → Prop
  | nil : Utf8Valid []
  | ascii {b : Nat} {rest : List Nat} :
      b ≤ 0x7F → Utf8Valid rest → Utf8Valid (b :: rest)
  | two {b1 b2 : Nat} {rest : List Nat} :
      0xC2 ≤ b1 → b1 ≤ 0xDF → isCont b2 = true →
      Utf8Valid rest → Utf8Valid (b1 :: b2 :: rest)
  | three {b1 b2 b3 : Nat} {rest : List Nat} :
      0xE0 ≤ b1 → b1 ≤ 0xEF → validSecond b1 b2 = true → isCont b3 = true →
      Utf8Valid rest → Utf8Valid (b1 :: b2 :: b3 :: rest)
  | four {b1 b2 b3 b4 : Nat} {rest : List Nat} :
      0xF0 ≤ b1 → b1 ≤ 0xF4 → validSecond b1 b2 = true → isCont b3 = true →
      isCont b4 = true → Utf8Valid rest → Utf8Valid (b1 :: b2 :: b3 :: b4 :: rest)

/-- `type Info = HashMap<OsmTag, TagInfo>`: a finite map, absent keys are
`none`. -/
abbrev Info := OsmTag → Option TagInfo

/-- `type OtherTags = HashSet<String>`: decoded names of unrecognized tags. -/
abbrev OtherTags := Finset (List Char)

/-- The two accumulators owned by the main loop (`info` and `others`). -/
structure ClassifierState where
  info : Info
  others : OtherTags

/-- The initial state: `HashMap::new()` and `HashSet::new()`. -/
def initState : ClassifierState := ⟨fun _ => none, ∅⟩

/-- The closure `register_tag`: on a recognized tag, fetch or default the
entry and bump `starts` (add = true) or `ends` (add = false); otherwise
insert the lossily decoded name into `others`. -/
def registerTag (add : Bool) (tag : List Nat) (s : ClassifierState) : ClassifierState :=
  match OsmTag.tryFrom tag with
  | .ok k =>
    let entry := (s.info k).getD ⟨0, 0⟩
    let entry2 := match add with
      | true => { entry with starts := entry.starts + 1 }
      | false => { entry with ends := entry.ends + 1 }
    { s with info := fun k2 => if k2 = k then some entry2 else s.info k2 }
  | .error _ => { s with others := insert (lossyDecode tag) s.others }

/-- One iteration of the main loop for a non-Eof event: Start registers an
opening, End a closing, Empty both in that order, the wildcard arm does
nothing. -/
def step (s : ClassifierState) : Event → ClassifierState
  | .Start n => registerTag true n s
  | .Empty n => registerTag false n (registerTag true n s)
  | .End n => registerTag false n s
  | .Eof => s
  | .Other => s

/-- The main loop driven over the results the reader yields:
`read_event_into(...).unwrap()` panics on the first `Err` (no state is
returned), Eof breaks out with the final state, every other event is folded
through `step`. -/
def runStream {E : Type} (s : ClassifierState) :
    List (Except E Event) → Option ClassifierState
  | [] => none
  | .error _ :: _ => none
  | .ok .Eof :: _ => some s
  | .ok e :: rest => runStream (step s e) rest

/-- The bytes handed to the reader for each format branch: the XML branch
reads the file directly, the BZIP2 branch reads it through BzDecoder. -/
def inputBytes (fmt : FileFormats) (inflate : List Nat → List Nat)
    (fileBytes : List Nat) : List Nat :=
  match fmt with
  | .XML => fileBytes
  | .BZIP2 => inflate fileBytes

/-- The observable outcome of `main`: the final summary line with the two
accumulators, the unsupported-extension message, or a panic from `unwrap`. -/
inductive MainResult
  | summary (info : Info) (others : OtherTags)
  | message (text : String)
  | panicked

/-- `fn main` for a given path and file content: resolve the format, select
the byte source accordingly, drive the loop, and print the summary; an
unresolvable format prints the fixed message and touches nothing else. -/
def mainRun {E : Type} (parse : List Nat → List (Except E Event))
    (inflate : List Nat → List Nat) (path : Option (List Char))
    (fileBytes : List Nat) : MainResult :=
  match FileFormats.tryFrom path with
  | .ok fmt =>
    match runStream initState (parse (inputBytes fmt inflate fileBytes)) with
    | some s => .summary s.info s.others
    | none => .panicked
  | .error _ => .message "Only files with extension .osm or .osm.bz2 are supported."

/-- A reader that immediately yields end of stream (an input with zero
elements). -/
def parseEof : List Nat → List (Except Unit Event) := fun _ => [Except.ok Event.Eof]

/-- A reader whose first result is a parse error. -/
def parseErr : List Nat → List (Except Unit Event) := fun _ => [Except.error ()]

/-- The bytes of "nÖde": ASCII n, the two UTF-8 bytes of Ö, ASCII d, e. -/
def nOdeBytes : List Nat := [0x6E, 0xC3, 0x96, 0x64, 0x65]

/-- Opening count recorded for kind k (0 when the entry is absent). -/
def startsOf (s : ClassifierState) (k : OsmTag) : Nat :=
  ((s.info k).getD ⟨0, 0⟩).starts

/-- Closing count recorded for kind k (0 when the entry is absent). -/
def endsOf (s : ClassifierState) (k : OsmTag) : Nat :=
  ((s.info k).getD ⟨0, 0⟩).ends

/-- Total number of observations recorded for kind k. -/
def tallyTotal (s : ClassifierState) (k : OsmTag) : Nat :=
  startsOf s k + endsOf s k

/-- A reader result observes kind k: it is a Start, End or Empty event whose
element name classifies as k. -/
def observes {E : Type} (k : OsmTag) : Except E Event → Prop
  | .ok (.Start n) => OsmTag.tryFrom n = .ok k
  | .ok (.End n) => OsmTag.tryFrom n = .ok k
  | .ok (.Empty n) => OsmTag.tryFrom n = .ok k
  | .ok .Eof => False
  | .ok .Other => False
  | .error _ => False

instance {ε α : Type} [DecidableEq ε] [DecidableEq α] : DecidableEq (Except ε α) :=
  fun a b =>
    match a, b with
    | .ok x, .ok y =>
      if h : x = y then isTrue (by rw [h]) else isFalse (fun hc => h (Except.ok.inj hc))
    | .error x, .error y =>
      if h : x = y then isTrue (by rw [h]) else isFalse (fun hc => h (Except.error.inj hc))
    | .ok _, .error _ => isFalse (fun hc => Except.noConfusion hc)
    | .error _, .ok _ => isFalse (fun hc => Except.noConfusion hc)

instance {E : Type} (k : OsmTag) (x : Except E Event) : Decidable (observes k x) :=
  match x with
  | .ok (.Start n) => inferInstanceAs (Decidable (OsmTag.tryFrom n = .ok k))
  | .ok (.End n) => inferInstanceAs (Decidable (OsmTag.tryFrom n = .ok k))
  | .ok (.Empty n) => inferInstanceAs (Decidable (OsmTag.tryFrom n = .ok k))
  | .ok .Eof => inferInstanceAs (Decidable False)
  | .ok .Other => inferInstanceAs (Decidable False)
  | .error _ => inferInstanceAs (Decidable False)

theorem tryFrom_error_eq (tag : List Nat) (b : Bool)
    (h : OsmTag.tryFrom tag = .error b) : b = false := by
  unfold OsmTag.tryFrom at h
  repeat' split at h
  all_goals simp_all

theorem others_registerTag_ok {tag : List Nat} {k : OsmTag}
    (h : OsmTag.tryFrom tag = .ok k) (add : Bool) (s : ClassifierState) :
    (registerTag add tag s).others = s.others := by
  simp [registerTag, h]

theorem info_registerTag_error {tag : List Nat} {b : Bool}
    (h : OsmTag.tryFrom tag = .error b) (add : Bool) (s : ClassifierState) :
    (registerTag add tag s).info = s.info := by
  simp [registerTag, h]

theorem others_registerTag_error {tag : List Nat} {b : Bool}
    (h : OsmTag.tryFrom tag = .error b) (add : Bool) (s : ClassifierState) :
    (registerTag add tag s).others = insert (lossyDecode tag) s.others := by
  simp [registerTag, h]

theorem startsOf_registerTag_true_ok {tag : List Nat} {k : OsmTag}
    (h : OsmTag.tryFrom tag = .ok k) (s : ClassifierState) :
    startsOf (registerTag true tag s) k = startsOf s k + 1 := by
  simp [registerTag, startsOf, h]

theorem endsOf_registerTag_false_ok {tag : List Nat} {k : OsmTag}
    (h : OsmTag.tryFrom tag = .ok k) (s : ClassifierState) :
    endsOf (registerTag false tag s) k = endsOf s k + 1 := by
  simp [registerTag, endsOf, h]

theorem endsOf_registerTag_true (tag : List Nat) (s : ClassifierState) (k : OsmTag) :
    endsOf (registerTag true tag s) k = endsOf s k := by
  cases h : OsmTag.tryFrom tag with
  | error b => simp [registerTag, endsOf, h]
  | ok k2 =>
    by_cases hk : k = k2
    · subst hk; simp [registerTag, endsOf, h]
    · simp [registerTag, endsOf, h, hk]

theorem startsOf_registerTag_false (tag : List Nat) (s : ClassifierState) (k : OsmTag) :
    startsOf (registerTag false tag s) k = startsOf s k := by
  cases h : OsmTag.tryFrom tag with
  | error b => simp [registerTag, startsOf, h]
  | ok k2 =>
    by_cases hk : k = k2
    · subst hk; simp [registerTag, startsOf, h]
    · simp [registerTag, startsOf, h, hk]

theorem startsOf_registerTag_le (add : Bool) (tag : List Nat)
    (s : ClassifierState) (k : OsmTag) :
    startsOf s k ≤ startsOf (registerTag add tag s) k := by
  cases h : OsmTag.tryFrom tag with
  | error b => simp [registerTag, startsOf, h]
  | ok k2 =>
    by_cases hk : k = k2
    · subst hk; cases add <;> simp [registerTag, startsOf, h]
    · cases add <;> simp [registerTag, startsOf, h, hk]

theorem endsOf_registerTag_le (add : Bool) (tag : List Nat)
    (s : ClassifierState) (k : OsmTag) :
    endsOf s k ≤ endsOf (registerTag add tag s) k := by
  cases h : OsmTag.tryFrom tag with
  | error b => simp [registerTag, endsOf, h]
  | ok k2 =>
    by_cases hk : k = k2
    · subst hk; cases add <;> simp [registerTag, endsOf, h]
    · cases add <;> simp [registerTag, endsOf, h, hk]

theorem tallyTotal_registerTag_ok {tag : List Nat} {k : OsmTag}
    (h : OsmTag.tryFrom tag = .ok k) (add : Bool) (s : ClassifierState) :
    tallyTotal (registerTag add tag s) k = tallyTotal s k + 1 := by
  cases add with
  | true =>
    simp [tallyTotal, startsOf_registerTag_true_ok h, endsOf_registerTag_true]
    omega
  | false =>
    simp [tallyTotal, endsOf_registerTag_false_ok h, startsOf_registerTag_false]
    omega

theorem ascii_of_eqIgnoreAsciiCase :
    ∀ (t p : List Nat), (∀ c ∈ p, c ≤ 0x7F) → eqIgnoreAsciiCase t p = true →
      ∀ b ∈ t, b ≤ 0x7F := by
  intro t
  induction t with
  | nil =>
    intro p _ _ b hb
    simp at hb
  | cons a ta ih =>
    intro p hp heq b hb
    cases p with
    | nil =>
      rw [show eqIgnoreAsciiCase (a :: ta) [] = false from rfl] at heq
      cases heq
    | cons c tc =>
      simp only [eqIgnoreAsciiCase, Bool.and_eq_true, beq_iff_eq] at heq
      rcases List.mem_cons.mp hb with hb1 | hb2
      · subst hb1
        have hc : c ≤ 0x7F := hp c (List.mem_cons_self c tc)
        have hlow := heq.1
        unfold toAsciiLowercase at hlow
        split at hlow <;> split at hlow <;> omega
      · exact ih tc (fun d hd => hp d (List.mem_cons_of_mem c hd)) heq.2 b hb2

theorem utf8Valid_of_ascii :
    ∀ (t : List Nat), (∀ b ∈ t, b ≤ 0x7F) → Utf8Valid t := by
  intro t
  induction t with
  | nil => intro _; exact Utf8Valid.nil
  | cons b1 rest ih =>
    intro h
    exact Utf8Valid.ascii (h b1 (List.mem_cons_self b1 rest))
      (ih (fun d hd => h d (List.mem_cons_of_mem b1 hd)))

theorem utf8Valid_of_tryFrom_ok {tag : List Nat} {k : OsmTag}
    (h : OsmTag.tryFrom tag = .ok k) : Utf8Valid tag := by
  by_cases h1 : eqIgnoreAsciiCase tag nodeBytes = true
  · exact utf8Valid_of_ascii tag
      (ascii_of_eqIgnoreAsciiCase tag nodeBytes (by decide) h1)
  by_cases h2 : eqIgnoreAsciiCase tag wayBytes = true
  · exact utf8Valid_of_ascii tag
      (ascii_of_eqIgnoreAsciiCase tag wayBytes (by decide) h2)
  by_cases h3 : eqIgnoreAsciiCase tag relationBytes = true
  · exact utf8Valid_of_ascii tag
      (ascii_of_eqIgnoreAsciiCase tag relationBytes (by decide) h3)
  · unfold OsmTag.tryFrom at h
    rw [if_neg h1, if_neg h2, if_neg h3] at h
    exact Except.noConfusion h

theorem info_registerTag_none {n : List Nat} {k : OsmTag} {s : ClassifierState}
    (h0 : s.info k = none) (hn : OsmTag.tryFrom n ≠ .ok k) (add : Bool) :
    (registerTag add n s).info k = none := by
  cases htf : OsmTag.tryFrom n with
  | error b =>
    rw [info_registerTag_error htf add s]
    exact h0
  | ok k2 =>
    have hk : k ≠ k2 := fun he => hn (he ▸ htf)
    simp [registerTag, htf, hk, h0]

theorem runStream_info_none {E : Type} (l : List (Except E Event)) :
    ∀ (s0 sFinal : ClassifierState) (k : OsmTag),
      runStream s0 l = some sFinal →
      (∀ x ∈ l, ¬ observes k x) →
      s0.info k = none →
      sFinal.info k = none := by
  induction l with
  | nil =>
    intro s0 sFinal k h _ _
    simp [runStream] at h
  | cons x l ih =>
    intro s0 sFinal k h hobs h0
    have hx := hobs x (List.mem_cons_self x l)
    have hrest : ∀ y ∈ l, ¬ observes k y :=
      fun y hy => hobs y (List.mem_cons_of_mem x hy)
    cases x with
    | error e => simp [runStream] at h
    | ok e =>
      cases e with
      | Eof =>
        have hs : s0 = sFinal := Option.some.inj h
        rw [← hs]
        exact h0
      | Start n =>
        exact ih (step s0 (Event.Start n)) sFinal k h hrest
          (info_registerTag_none h0 hx true)
      | End n =>
        exact ih (step s0 (Event.End n)) sFinal k h hrest
          (info_registerTag_none h0 hx false)
      | Empty n =>
        exact ih (step s0 (Event.Empty n)) sFinal k h hrest
          (info_registerTag_none (info_registerTag_none h0 hx true) hx false)
      | Other => exact ih (step s0 Event.Other) sFinal k h hrest h0

/-- C1 counterexample: on an input with zero elements the run reaches
EndOfStream with the accumulators untouched, and the reported TallyTable has
NO entry for Node (the HashMap is empty), contradicting the claim that all
three kinds appear with zero counts. -/
theorem c1_zero_kinds_cex :
    mainRun parseEof id (some ("m.osm".toList)) [] =
      .summary initState.info initState.others ∧
    initState.info OsmTag.Node = none :=
  ⟨rfl, rfl⟩

/-- C1 (amended): after EndOfStream the TallyTable holds an entry only for
kinds observed at least once: on every run, a kind that no processed
Start/End/Empty event's name classifies to is absent from the final table
(not reported as zero); in particular, for an input with zero elements the
report shows an empty TallyTable (all three kinds absent) and an empty
OtherNames. -/
theorem c1_observed_kinds_only :
    (∀ (E : Type) (l : List (Except E Event)) (sFinal : ClassifierState) (k : OsmTag),
      runStream initState l = some sFinal →
      (∀ x ∈ l, ¬ observes k x) →
      sFinal.info k = none) ∧
    mainRun parseEof id (some ("m.osm".toList)) [] =
      .summary initState.info initState.others ∧
    (∀ k : OsmTag, initState.info k = none) ∧
    initState.others = ∅ :=
  ⟨fun _ l sFinal k h hobs => runStream_info_none l initState sFinal k h hobs rfl,
   rfl, fun _ => rfl, rfl⟩

/-- C1 witness: a run observing only a node element leaves the Way entry
absent, and the zero-element run reports the untouched accumulators. -/
theorem c1_observed_kinds_only_w :
    (registerTag true nodeBytes initState).info OsmTag.Way = none ∧
    mainRun parseEof id (some ("m.osm".toList)) [] =
      .summary initState.info initState.others :=
  ⟨c1_observed_kinds_only.1 Unit
      [Except.ok (Event.Start nodeBytes), Except.ok Event.Eof]
      (registerTag true nodeBytes initState) OsmTag.Way rfl (by decide),
   c1_observed_kinds_only.2.1⟩

/-- C2: every registration of an element name lands in exactly one of the two
aggregates: a recognized name bumps exactly one counter of its kind and
leaves OtherNames unchanged, an unrecognized name leaves the TallyTable
unchanged and is a member of OtherNames afterwards — never both, never
neither. -/
theorem c2_exhaustive_classification (s : ClassifierState) (add : Bool) (tag : List Nat) :
    Xor'
      (∃ k, OsmTag.tryFrom tag = .ok k ∧
        (registerTag add tag s).others = s.others ∧
        tallyTotal (registerTag add tag s) k = tallyTotal s k + 1)
      (OsmTag.tryFrom tag = .error false ∧
        (registerTag add tag s).info = s.info ∧
        lossyDecode tag ∈ (registerTag add tag s).others) := by
  cases h : OsmTag.tryFrom tag with
  | ok k =>
    left
    refine ⟨⟨k, rfl, others_registerTag_ok h add s, tallyTotal_registerTag_ok h add s⟩, ?_⟩
    rintro ⟨he, -, -⟩
    exact Except.noConfusion he
  | error b =>
    have hb := tryFrom_error_eq tag b h
    subst hb
    right
    refine ⟨⟨rfl, info_registerTag_error h add s, ?_⟩, ?_⟩
    · rw [others_registerTag_error h add s]
      exact Finset.mem_insert_self _ _
    · rintro ⟨k, hk, -, -⟩
      exact Except.noConfusion hk

/-- C3: processing an EmptyElement event is, on the accumulators, literally a
StartElement followed by an EndElement for the same name, from any state. -/
theorem c3_empty_is_start_then_end (s : ClassifierState) (n : List Nat) :
    step s (Event.Empty n) = step (step s (Event.Start n)) (Event.End n) := rfl

/-- C4: classification folds ASCII case only: the byte strings "Node",
"NODE" and "node" all classify as Node, while "nÖde" (which differs from
"node" only by a non-ASCII casing of its second letter) matches no kind and
is recorded, in its original decoded spelling, in OtherNames. -/
theorem c4_ascii_case_insensitive :
    OsmTag.tryFrom [0x4E, 0x6F, 0x64, 0x65] = .ok .Node ∧
    OsmTag.tryFrom [0x4E, 0x4F, 0x44, 0x45] = .ok .Node ∧
    OsmTag.tryFrom [0x6E, 0x6F, 0x64, 0x65] = .ok .Node ∧
    OsmTag.tryFrom nOdeBytes = .error false ∧
    lossyDecode nOdeBytes = "nÖde".toList ∧
    lossyDecode nOdeBytes ∈ (registerTag true nOdeBytes initState).others :=
  ⟨rfl, rfl, rfl, rfl, rfl, by decide⟩


/-- C5: a path whose name ends in "osm.bz2" resolves to BZIP2, one ending in
"osm" but not "osm.bz2" resolves to XML, and any other path — including one
whose name is not valid UTF-8 — is unsupported, in which case main emits
exactly the fixed message, independent of the file content and of whatever
the reader would have produced. -/
theorem c5_format_resolution :
    (∀ s : List Char, List.isSuffixOf ("osm.bz2".toList) s = true →
      FileFormats.tryFrom (some s) = .ok .BZIP2) ∧
    (∀ s : List Char, List.isSuffixOf ("osm.bz2".toList) s = false →
      List.isSuffixOf ("osm".toList) s = true →
      FileFormats.tryFrom (some s) = .ok .XML) ∧
    (∀ s : List Char, List.isSuffixOf ("osm.bz2".toList) s = false →
      List.isSuffixOf ("osm".toList) s = false →
      FileFormats.tryFrom (some s) = .error false) ∧
    FileFormats.tryFrom none = .error false ∧
    (∀ (E : Type) (parse : List Nat → List (Except E Event))
      (inflate : List Nat → List Nat) (path : Option (List Char)) (bytes : List Nat),
      FileFormats.tryFrom path = .error false →
      mainRun parse inflate path bytes =
        .message "Only files with extension .osm or .osm.bz2 are supported.") := by
  refine ⟨?_, ?_, ?_, rfl, ?_⟩
  · intro s h
    simp at h
    simp [FileFormats.tryFrom, h]
  · intro s h1 h2
    simp at h1 h2
    simp [FileFormats.tryFrom, h1, h2]
  · intro s h1 h2
    simp at h1 h2
    simp [FileFormats.tryFrom, h1, h2]
  · intro E parse inflate path bytes h
    simp [mainRun, h]

/-- C5 witness: the dispatch evaluated on "map.osm.bz2", "map.osm",
"map.txt", a non-UTF-8 name and an unsupported run of main. -/
theorem c5_format_resolution_w :
    FileFormats.tryFrom (some ("map.osm.bz2".toList)) = .ok .BZIP2 ∧
    FileFormats.tryFrom (some ("map.osm".toList)) = .ok .XML ∧
    FileFormats.tryFrom (some ("map.txt".toList)) = .error false ∧
    FileFormats.tryFrom none = .error false ∧
    mainRun parseEof id (some ("map.txt".toList)) [] =
      .message "Only files with extension .osm or .osm.bz2 are supported." :=
  ⟨c5_format_resolution.1 _ (by decide),
   c5_format_resolution.2.1 _ (by decide) (by decide),
   c5_format_resolution.2.2.1 _ (by decide) (by decide),
   c5_format_resolution.2.2.2.1,
   c5_format_resolution.2.2.2.2 Unit parseEof id _ [] (by decide)⟩

/-- C6: the per-kind counters never decrease under any event; a Start event
leaves every ends counter unchanged and an End event every starts counter
(independence); and a self-closing element whose name classifies as kind k
increments both counters of k by exactly one. -/
theorem c6_counters_monotone :
    (∀ (s : ClassifierState) (e : Event) (k : OsmTag),
      startsOf s k ≤ startsOf (step s e) k ∧ endsOf s k ≤ endsOf (step s e) k) ∧
    (∀ (s : ClassifierState) (n : List Nat) (k : OsmTag),
      endsOf (step s (Event.Start n)) k = endsOf s k ∧
      startsOf (step s (Event.End n)) k = startsOf s k) ∧
    (∀ (s : ClassifierState) (n : List Nat) (k : OsmTag),
      OsmTag.tryFrom n = .ok k →
      startsOf (step s (Event.Empty n)) k = startsOf s k + 1 ∧
      endsOf (step s (Event.Empty n)) k = endsOf s k + 1) := by
  refine ⟨?_, ?_, ?_⟩
  · intro s e k
    cases e with
    | Start n => exact ⟨startsOf_registerTag_le true n s k, endsOf_registerTag_le true n s k⟩
    | End n => exact ⟨startsOf_registerTag_le false n s k, endsOf_registerTag_le false n s k⟩
    | Empty n =>
      constructor
      · exact le_trans (startsOf_registerTag_le true n s k)
          (startsOf_registerTag_le false n (registerTag true n s) k)
      · exact le_trans (endsOf_registerTag_le true n s k)
          (endsOf_registerTag_le false n (registerTag true n s) k)
    | Eof => exact ⟨le_refl _, le_refl _⟩
    | Other => exact ⟨le_refl _, le_refl _⟩
  · intro s n k
    exact ⟨endsOf_registerTag_true n s k, startsOf_registerTag_false n s k⟩
  · intro s n k h
    constructor
    · rw [show step s (Event.Empty n) = registerTag false n (registerTag true n s) from rfl,
        startsOf_registerTag_false, startsOf_registerTag_true_ok h]
    · rw [show step s (Event.Empty n) = registerTag false n (registerTag true n s) from rfl,
        endsOf_registerTag_false_ok h, endsOf_registerTag_true]

/-- C6 witness: monotonicity at one concrete step and the double increment of
a self-closing node element from the initial state. -/
theorem c6_counters_monotone_w :
    (startsOf initState OsmTag.Node ≤
      startsOf (step initState (Event.Start nodeBytes)) OsmTag.Node ∧
     endsOf initState OsmTag.Node ≤
      endsOf (step initState (Event.Start nodeBytes)) OsmTag.Node) ∧
    (startsOf (step initState (Event.Empty nodeBytes)) OsmTag.Node =
      startsOf initState OsmTag.Node + 1 ∧
     endsOf (step initState (Event.Empty nodeBytes)) OsmTag.Node =
      endsOf initState OsmTag.Node + 1) :=
  ⟨c6_counters_monotone.1 initState (Event.Start nodeBytes) OsmTag.Node,
   c6_counters_monotone.2.2 initState nodeBytes OsmTag.Node (by decide)⟩

/-- C7: a reader error aborts the run at that point: however many well-formed
non-Eof events precede it, the loop result is none whatever follows the
error, and main then cannot produce a summary. -/
theorem c7_reader_error_aborts :
    (∀ (E : Type) (s : ClassifierState) (pre : List (Except E Event)) (err : E)
      (rest : List (Except E Event)),
      (∀ x ∈ pre, ∃ e, x = Except.ok e ∧ e ≠ Event.Eof) →
      runStream s (pre ++ Except.error err :: rest) = none) ∧
    (∀ (E : Type) (parse : List Nat → List (Except E Event))
      (inflate : List Nat → List Nat) (path : Option (List Char))
      (bytes : List Nat) (fmt : FileFormats),
      FileFormats.tryFrom path = .ok fmt →
      runStream initState (parse (inputBytes fmt inflate bytes)) = none →
      ∀ (i : Info) (o : OtherTags), mainRun parse inflate path bytes ≠ .summary i o) := by
  constructor
  · intro E s pre err rest
    induction pre generalizing s with
    | nil => intro _; rfl
    | cons x pre ih =>
      intro hpre
      obtain ⟨e, rfl, he⟩ := hpre x (List.mem_cons_self x pre)
      have hrest : ∀ y ∈ pre, ∃ e, y = Except.ok e ∧ e ≠ Event.Eof :=
        fun y hy => hpre y (List.mem_cons_of_mem _ hy)
      cases e with
      | Eof => exact absurd rfl he
      | Start n => exact ih (step s (Event.Start n)) hrest
      | End n => exact ih (step s (Event.End n)) hrest
      | Empty n => exact ih (step s (Event.Empty n)) hrest
      | Other => exact ih (step s Event.Other) hrest
  · intro E parse inflate path bytes fmt h1 h2 i o
    simp [mainRun, h1, h2]

/-- C7 witness: a stream with one Start event, then a parse error, then more
input, aborts with no state; the corresponding main run yields no summary. -/
theorem c7_reader_error_aborts_w :
    runStream initState
      [Except.ok (Event.Start nodeBytes), Except.error (), Except.ok Event.Eof] = none ∧
    mainRun parseErr id (some ("m.osm".toList)) [] ≠
      .summary initState.info initState.others :=
  ⟨c7_reader_error_aborts.1 Unit initState [Except.ok (Event.Start nodeBytes)] ()
      [Except.ok Event.Eof]
      (by
        intro x hx
        simp only [List.mem_singleton] at hx
        subst hx
        exact ⟨Event.Start nodeBytes, rfl, by decide⟩),
   c7_reader_error_aborts.2 Unit parseErr id (some ("m.osm".toList)) [] FileFormats.XML
      rfl rfl initState.info initState.others⟩

/-- C8: a name whose bytes are not valid UTF-8 never matches a kind (the kind
names are pure ASCII, and any name equal to one of them under ASCII case
folding is itself pure ASCII), and registration records its lossy decoding in
OtherNames, leaving the TallyTable untouched — classification never fails the
run. -/
theorem c8_non_utf8_names_total (tag : List Nat) (add : Bool) (s : ClassifierState)
    (h : ¬ Utf8Valid tag) :
    OsmTag.tryFrom tag = .error false ∧
    (registerTag add tag s).info = s.info ∧
    (registerTag add tag s).others = insert (lossyDecode tag) s.others := by
  cases htf : OsmTag.tryFrom tag with
  | ok k => exact absurd (utf8Valid_of_tryFrom_ok htf) h
  | error b =>
    have hb := tryFrom_error_eq tag b htf
    subst hb
    exact ⟨rfl, info_registerTag_error htf add s, others_registerTag_error htf add s⟩

/-- C8 witness: the single byte 0xFF is not valid UTF-8; registering it
leaves the table unchanged and inserts its lossy decoding. -/
theorem c8_non_utf8_names_total_w :
    OsmTag.tryFrom [0xFF] = .error false ∧
    (registerTag true [0xFF] initState).info = initState.info ∧
    (registerTag true [0xFF] initState).others =
      insert (lossyDecode [0xFF]) initState.others :=
  c8_non_utf8_names_total [0xFF] true initState
    (by intro h; cases h; omega)

/-- C9: running main on a BlockCompressed path is the same as inflating the
file bytes and running main on a PlainText path: both branches feed the same
inflated byte stream to the same reader and loop. -/
theorem c9_compressed_equals_inflated_plain (E : Type)
    (parse : List Nat → List (Except E Event)) (inflate : List Nat → List Nat)
    (pathBz pathPlain : Option (List Char)) (bytes : List Nat)
    (h1 : FileFormats.tryFrom pathBz = .ok .BZIP2)
    (h2 : FileFormats.tryFrom pathPlain = .ok .XML) :
    mainRun parse inflate pathBz bytes = mainRun parse inflate pathPlain (inflate bytes) := by
  simp [mainRun, h1, h2, inputBytes]

/-- C9 witness: the equivalence at a concrete compressed path, plain path,
reader and identity decompressor. -/
theorem c9_compressed_equals_inflated_plain_w :
    mainRun parseEof id (some ("m.osm.bz2".toList)) [] =
      mainRun parseEof id (some ("m.osm".toList)) (id []) :=
  c9_compressed_equals_inflated_plain Unit parseEof id _ _ [] rfl rfl

/-- C10 counterexample: "blossom" ends in the characters "som", not "osm",
so format resolution classifies it as unsupported, not PlainText. -/
theorem c10_blossom_cex :
    FileFormats.tryFrom (some ("blossom".toList)) = .error false ∧
    FileFormats.tryFrom (some ("blossom".toList)) ≠ .ok FileFormats.XML :=
  ⟨rfl, by decide⟩

/-- C10 (amended): no extension boundary is required before the matched
suffix: any name ending in the characters "osm" without a preceding dot (for
example "bigosm"), as long as it does not also end in "osm.bz2", resolves to
PlainText, and any name ending in the characters "osm.bz2" resolves to
BlockCompressed. -/
theorem c10_no_extension_boundary (s : List Char) :
    (List.isSuffixOf ("osm".toList) s = true →
      List.isSuffixOf ("osm.bz2".toList) s = false →
      FileFormats.tryFrom (some s) = .ok .XML) ∧
    (List.isSuffixOf ("osm.bz2".toList) s = true →
      FileFormats.tryFrom (some s) = .ok .BZIP2) := by
  constructor
  · intro h1 h2
    simp at h1 h2
    simp [FileFormats.tryFrom, h1, h2]
  · intro h
    simp at h
    simp [FileFormats.tryFrom, h]

/-- C10 witness: "bigosm" (no dot before the suffix) resolves to PlainText
and "xosm.bz2" to BlockCompressed. -/
theorem c10_no_extension_boundary_w :
    FileFormats.tryFrom (some ("bigosm".toList)) = .ok .XML ∧
    FileFormats.tryFrom (some ("xosm.bz2".toList)) = .ok .BZIP2 :=
  ⟨(c10_no_extension_boundary ("bigosm".toList)).1 (by decide) (by decide),
   (c10_no_extension_boundary ("xosm.bz2".toList)).2 (by decide)⟩

end OsmParse
